import Mathlib

/-!
Formal model of the song-set reconciliation core of `gmsync.py`
(`src/gmusicapi_scripts/gmsync.py`): song identity, the playlist/favorites
deriver, the collection comparator interface, the post-comparator sorts,
the favorites-name selection, the base-path derivation for downloads, and
the control flow of `main`.
-/

/-- Song record as the script passes it around: a duck-typed mapping with an
optional `trackId`, a required `id`, and the further fields the script reads
(`rating` and `lastModifiedTimestamp` for favorites, tag fields for the
download sort).  Integer-valued fields are modelled after the `int(...)`
conversions the script applies. -/
structure Track where
  trackId : Option String
  id : String
  rating : Int
  lastModifiedTimestamp : Int
  artist : String
  album : String
  track_number : Int
deriving DecidableEq

/-- Identifier precedence from `gmsync.py` lines 287-288:
`track['trackId'] if 'trackId' in track else track['id']`. -/
def songid (t : Track) : String :=
  match t.trackId with
  | some tid => tid
  | none => t.id

/-- Python dict specialised to `String` keys, modelled as an association list
in which the most recent assignment is found first, so that lookup and
membership agree with the dict being modelled. -/
abbrev PyDict (α : Type) := List (String × α)

/-- Dict assignment `d[k] = v`. -/
def dput (d : PyDict α) (k : String) (v : α) : PyDict α := (k, v) :: d

/-- Dict lookup `d[k]`, returning `none` where Python raises `KeyError`. -/
def dget (d : PyDict α) (k : String) : Option α := List.lookup k d

/-- Fold step of lines 290-293: `songs[songid(song)] = song`. -/
def songs_to_dict (d : PyDict Track) (s : Track) : PyDict Track :=
  dput d (songid s) s

/-- Lines 295-296: `reduce(songs_to_dict, songs, {})`, indexing every song
under its `songid`, later occurrences overwriting earlier ones. -/
def songsDict (songs : List Track) : PyDict Track :=
  songs.foldl songs_to_dict []

/-- Single resolution step of the deriver: `tracks_dict[id]`, which raises
`KeyError` (modelled as `Except.error ()`) when the key is absent. -/
def resolveTrack (td : PyDict Track) (s : Track) : Except Unit Track :=
  match dget td (songid s) with
  | some tr => Except.ok tr
  | none => Except.error ()

/-- Loop of `get_mmw_tracks` (lines 300-308) with the `seen` dict made an
explicit argument: entries whose id was already seen are skipped, otherwise
`tracks_dict[id]` is appended (raising `KeyError` when absent). -/
def get_mmw_tracksAux (td : PyDict Track) (seen : List String) :
    List Track → Except Unit (List Track)
  | [] => Except.ok []
  | s :: rest =>
    if songid s ∈ seen then get_mmw_tracksAux td seen rest
    else
      match dget td (songid s) with
      | none => Except.error ()
      | some tr =>
        match get_mmw_tracksAux td (songid s :: seen) rest with
        | Except.error e => Except.error e
        | Except.ok ts => Except.ok (tr :: ts)

/-- Function `get_mmw_tracks` of `gmsync.py` lines 300-308. -/
def get_mmw_tracks (td : PyDict Track) (songs : List Track) : Except Unit (List Track) :=
  get_mmw_tracksAux td [] songs

/-- Error-propagating map over a list, used to state that the deriver loop
equals staged first-occurrence deduplication followed by resolution. -/
def mapE (f : α → Except ε β) : List α → Except ε (List β)
  | [] => Except.ok []
  | a :: l =>
    match f a with
    | Except.error e => Except.error e
    | Except.ok b =>
      match mapE f l with
      | Except.error e => Except.error e
      | Except.ok bs => Except.ok (b :: bs)

/-- First-occurrence deduplication of songs by `songid`, relative to a set of
already-seen keys. -/
def dedupAux (seen : List String) : List Track → List Track
  | [] => []
  | s :: rest =>
    if songid s ∈ seen then dedupAux seen rest
    else s :: dedupAux (songid s :: seen) rest

/-- First-occurrence deduplication of songs by `songid`. -/
def dedupFirst (songs : List Track) : List Track := dedupAux [] songs

/-- First-occurrence deduplication of a list of keys relative to seen keys. -/
def dedupKeysAux (seen : List String) : List String → List String
  | [] => []
  | k :: rest =>
    if k ∈ seen then dedupKeysAux seen rest
    else k :: dedupKeysAux (k :: seen) rest

/-- First-occurrence deduplication of a list of keys. -/
def dedupKeys (ks : List String) : List String := dedupKeysAux [] ks

theorem dget_dput (d : PyDict α) (k k2 : String) (v : α) :
    dget (dput d k v) k2 = if k2 = k then some v else dget d k2 := by
  simp only [dget, dput, List.lookup]
  split <;> simp_all

theorem get_mmw_tracksAux_eq (td : PyDict Track) :
    ∀ (songs : List Track) (seen : List String),
      get_mmw_tracksAux td seen songs = mapE (resolveTrack td) (dedupAux seen songs)
  | [], _ => rfl
  | s :: rest, seen => by
    by_cases h : songid s ∈ seen
    · simp only [get_mmw_tracksAux, dedupAux, if_pos h]
      exact get_mmw_tracksAux_eq td rest seen
    · simp only [get_mmw_tracksAux, dedupAux, if_neg h, mapE, resolveTrack]
      cases hd : dget td (songid s) with
      | none => rfl
      | some tr =>
        rw [get_mmw_tracksAux_eq td rest (songid s :: seen)]
        simp only []
        cases mapE (resolveTrack td) (dedupAux (songid s :: seen) rest) <;> simp

theorem get_mmw_tracks_staged (td : PyDict Track) (songs : List Track) :
    get_mmw_tracks td songs = mapE (resolveTrack td) (dedupFirst songs) :=
  get_mmw_tracksAux_eq td songs []

theorem dedupAux_map_songid :
    ∀ (songs : List Track) (seen : List String),
      (dedupAux seen songs).map songid = dedupKeysAux seen (songs.map songid)
  | [], _ => rfl
  | s :: rest, seen => by
    by_cases h : songid s ∈ seen
    · simp only [dedupAux, List.map, dedupKeysAux, if_pos h]
      exact dedupAux_map_songid rest seen
    · simp only [dedupAux, List.map, dedupKeysAux, if_neg h]
      rw [dedupAux_map_songid rest (songid s :: seen)]

theorem mem_dedupKeysAux :
    ∀ (ks : List String) (seen : List String) (k : String),
      k ∈ dedupKeysAux seen ks ↔ k ∈ ks ∧ k ∉ seen
  | [], seen, k => by simp [dedupKeysAux]
  | k2 :: rest, seen, k => by
    by_cases h : k2 ∈ seen
    · simp only [dedupKeysAux, if_pos h, mem_dedupKeysAux rest seen k, List.mem_cons]
      by_cases hkk : k = k2
      · subst hkk; simp [h]
      · simp [hkk]
    · simp only [dedupKeysAux, if_neg h, List.mem_cons,
        mem_dedupKeysAux rest (k2 :: seen) k]
      by_cases hkk : k = k2
      · subst hkk; simp [h]
      · simp [hkk]

theorem nodup_dedupKeysAux :
    ∀ (ks : List String) (seen : List String), (dedupKeysAux seen ks).Nodup
  | [], _ => List.nodup_nil
  | k2 :: rest, seen => by
    by_cases h : k2 ∈ seen
    · simpa only [dedupKeysAux, if_pos h] using nodup_dedupKeysAux rest seen
    · simp only [dedupKeysAux, if_neg h, List.nodup_cons]
      refine ⟨fun hmem => ?_, nodup_dedupKeysAux rest (k2 :: seen)⟩
      exact ((mem_dedupKeysAux rest (k2 :: seen) k2).mp hmem).2 (List.mem_cons_self _ _)

theorem dedupAux_subset :
    ∀ (songs : List Track) (seen : List String) (s : Track),
      s ∈ dedupAux seen songs → s ∈ songs
  | [], _, _ => by simp [dedupAux]
  | s2 :: rest, seen, s => by
    by_cases h : songid s2 ∈ seen
    · simp only [dedupAux, if_pos h, List.mem_cons]
      exact fun hs => Or.inr (dedupAux_subset rest seen s hs)
    · simp only [dedupAux, if_neg h, List.mem_cons]
      rintro (rfl | hs)
      · exact Or.inl rfl
      · exact Or.inr (dedupAux_subset rest (songid s2 :: seen) s hs)

theorem songsDict_selfKeyed :
    ∀ (songs : List Track) (d : PyDict Track),
      (∀ k tr, dget d k = some tr → songid tr = k) →
      ∀ k tr, dget (songs.foldl songs_to_dict d) k = some tr → songid tr = k
  | [], _, hd => hd
  | s :: rest, d, hd => by
    simp only [List.foldl]
    refine songsDict_selfKeyed rest (songs_to_dict d s) ?_
    intro k tr hk
    rw [songs_to_dict, dget_dput] at hk
    split at hk
    · cases hk; simp_all
    · exact hd k tr hk

theorem dget_foldl_preserved :
    ∀ (songs : List Track) (d : PyDict Track) (k : String),
      dget d k ≠ none → dget (songs.foldl songs_to_dict d) k ≠ none
  | [], _, _ => fun h => h
  | s :: rest, d, k => by
    intro h
    simp only [List.foldl]
    refine dget_foldl_preserved rest (songs_to_dict d s) k ?_
    rw [songs_to_dict, dget_dput]
    split <;> simp_all

theorem dget_songsDict_mem :
    ∀ (songs : List Track) (d : PyDict Track) (k : String),
      (∃ t ∈ songs, songid t = k) → dget (songs.foldl songs_to_dict d) k ≠ none
  | [], _, _ => by simp
  | s :: rest, d, k => by
    rintro ⟨t, ht, hk⟩
    simp only [List.mem_cons] at ht
    simp only [List.foldl]
    rcases ht with rfl | ht
    · refine dget_foldl_preserved rest (songs_to_dict d t) k ?_
      rw [songs_to_dict, dget_dput, hk]
      simp
    · exact dget_songsDict_mem rest (songs_to_dict d s) k ⟨t, ht, hk⟩

theorem mapE_resolve_ok (td : PyDict Track)
    (hsk : ∀ k tr, dget td k = some tr → songid tr = k) :
    ∀ l : List Track, (∀ s ∈ l, dget td (songid s) ≠ none) →
      ∃ ts, mapE (resolveTrack td) l = Except.ok ts ∧ ts.map songid = l.map songid
  | [], _ => ⟨[], rfl, rfl⟩
  | s :: rest, h => by
    have hs := h s (List.mem_cons_self _ _)
    cases hd : dget td (songid s) with
    | none => exact absurd hd hs
    | some tr =>
      obtain ⟨ts, hts, hmap⟩ :=
        mapE_resolve_ok td hsk rest (fun x hx => h x (List.mem_cons_of_mem _ hx))
      refine ⟨tr :: ts, ?_, ?_⟩
      · simp only [mapE, resolveTrack, hd, hts]
      · simp only [List.map, hmap, hsk (songid s) tr hd]

theorem mapE_error_unit (f : α → Except Unit β) :
    ∀ l : List α, (∃ a ∈ l, f a = Except.error ()) → mapE f l = Except.error ()
  | [], h => by simp at h
  | a :: rest, h => by
    rcases h with ⟨x, hx, hfx⟩
    simp only [List.mem_cons] at hx
    rcases hx with rfl | hx
    · simp only [mapE, hfx]
    · simp only [mapE]
      cases hfa : f a with
      | error e => cases e; rfl
      | ok b => rw [mapE_error_unit f rest ⟨x, hx, hfx⟩]

/-- Helper for concrete song records: only the identity fields vary. -/
def mkTrack (tid : Option String) (i : String) : Track :=
  ⟨tid, i, 0, 0, "", "", 0⟩

theorem dget_nil (k : String) : dget ([] : PyDict α) k = none := rfl

theorem dget_songsDict_selfKeyed (songs : List Track) :
    ∀ k tr, dget (songsDict songs) k = some tr → songid tr = k := by
  intro k tr h
  rw [songsDict] at h
  exact songsDict_selfKeyed songs []
    (fun k2 tr2 h2 => by rw [dget_nil] at h2; cases h2) k tr h

theorem dget_songsDict_of_mem (songs : List Track) (k : String)
    (h : ∃ t ∈ songs, songid t = k) : dget (songsDict songs) k ≠ none := by
  rw [songsDict]
  exact dget_songsDict_mem songs [] k h

/-- Music-manager tracks used in the concrete deduplication example. -/
def exTracks : List Track := [mkTrack none "A", mkTrack none "B", mkTrack none "C"]

/-- Playlist entries keyed `[A, B, A, C]` (the duplicate `A` is a distinct
record carrying the same identity key). -/
def exPlaylist : List Track :=
  [mkTrack (some "A") "p1", mkTrack (some "B") "p2",
   mkTrack (some "A") "p3", mkTrack (some "C") "p4"]

/-- Claim C5: over a lookup built from the matched+filtered google songs,
`get_mmw_tracks` resolves an ordered playlist track list with duplicates (by
identity key) removed, first occurrence winning, in input order; the keyed
example `[A, B, A, C]` yields the tracks keyed `[A, B, C]` in that order. -/
theorem get_mmw_tracks_dedup_stable (tracks songs : List Track)
    (h : ∀ s ∈ songs, ∃ t ∈ tracks, songid t = songid s) :
    (∃ ts, get_mmw_tracks (songsDict tracks) songs = Except.ok ts
        ∧ ts.map songid = dedupKeys (songs.map songid))
    ∧ (dedupKeys (songs.map songid)).Nodup
    ∧ (∀ k, k ∈ dedupKeys (songs.map songid) ↔ k ∈ songs.map songid)
    ∧ get_mmw_tracks (songsDict exTracks) exPlaylist
        = Except.ok [mkTrack none "A", mkTrack none "B", mkTrack none "C"] := by
  refine ⟨?_, nodup_dedupKeysAux _ _, ?_, rfl⟩
  · rw [get_mmw_tracks_staged]
    obtain ⟨ts, hts, hmap⟩ := mapE_resolve_ok (songsDict tracks)
      (dget_songsDict_selfKeyed tracks) (dedupFirst songs)
      (fun s hs => dget_songsDict_of_mem tracks (songid s)
        (h s (dedupAux_subset songs [] s hs)))
    refine ⟨ts, hts, ?_⟩
    rw [hmap, dedupFirst, dedupAux_map_songid songs [], dedupKeys]
  · intro k
    rw [dedupKeys, mem_dedupKeysAux]
    simp

/-- Witness for C5 at the concrete `[A, B, A, C]` playlist. -/
theorem get_mmw_tracks_dedup_stable_witness :
    (∀ s ∈ exPlaylist, ∃ t ∈ exTracks, songid t = songid s)
    ∧ ((∃ ts, get_mmw_tracks (songsDict exTracks) exPlaylist = Except.ok ts
          ∧ ts.map songid = dedupKeys (exPlaylist.map songid))
      ∧ (dedupKeys (exPlaylist.map songid)).Nodup
      ∧ (∀ k, k ∈ dedupKeys (exPlaylist.map songid) ↔ k ∈ exPlaylist.map songid)
      ∧ get_mmw_tracks (songsDict exTracks) exPlaylist
          = Except.ok [mkTrack none "A", mkTrack none "B", mkTrack none "C"]) :=
  ⟨by decide, get_mmw_tracks_dedup_stable exTracks exPlaylist (by decide)⟩

/-- Claim C1, counterexample: an entry whose identity key (`A`) is absent from
the lookup is not silently skipped — the resolution raises `KeyError`
(`Except.error`) instead of returning the resolvable remainder keyed `[B]`. -/
theorem get_mmw_tracks_keyerror_cx :
    get_mmw_tracks (songsDict [mkTrack none "B"])
      [mkTrack (some "B") "x", mkTrack (some "A") "y"] = Except.error () := rfl

/-- Claim C1 as amended: when some entry of the track list has an identity key
absent from the music-manager lookup, `get_mmw_tracks` raises `KeyError`
(modelled as `Except.error ()`) rather than completing with the entry
silently skipped. -/
theorem get_mmw_tracks_keyerror_amended (td : PyDict Track) (songs : List Track)
    (h : ∃ s ∈ songs, dget td (songid s) = none) :
    get_mmw_tracks td songs = Except.error () := by
  rw [get_mmw_tracks_staged]
  rcases h with ⟨s, hs, hd⟩
  apply mapE_error_unit
  have hk : songid s ∈ (dedupFirst songs).map songid := by
    rw [dedupFirst, dedupAux_map_songid songs []]
    rw [mem_dedupKeysAux]
    exact ⟨List.mem_map_of_mem songid hs, by simp⟩
  obtain ⟨s2, hs2, hkey⟩ := List.mem_map.mp hk
  refine ⟨s2, hs2, ?_⟩
  simp [resolveTrack, hkey, hd]

/-- Witness for the amended C1 at a concrete unresolvable playlist entry. -/
theorem get_mmw_tracks_keyerror_amended_witness :
    (∃ s ∈ [mkTrack (some "B") "x", mkTrack (some "A") "y"],
        dget (songsDict [mkTrack none "B"]) (songid s) = none)
    ∧ get_mmw_tracks (songsDict [mkTrack none "B"])
        [mkTrack (some "B") "x", mkTrack (some "A") "y"] = Except.error () :=
  ⟨by decide, get_mmw_tracks_keyerror_amended _ _ (by decide)⟩

/-- Claim C10: the identity key is `trackId` when present, else `id`, and the
lookup dict built from a song list indexes every song under exactly that
key. -/
theorem songid_identity_precedence :
    (∀ t : Track, ∀ v : String, t.trackId = some v → songid t = v)
    ∧ (∀ t : Track, t.trackId = none → songid t = t.id)
    ∧ (∀ songs : List Track, ∀ s ∈ songs,
        ∃ tr, dget (songsDict songs) (songid s) = some tr
          ∧ songid tr = songid s) := by
  refine ⟨fun t v h => by simp [songid, h], fun t h => by simp [songid, h], ?_⟩
  intro songs s hs
  have hne : dget (songsDict songs) (songid s) ≠ none :=
    dget_songsDict_of_mem songs (songid s) ⟨s, hs, rfl⟩
  cases hd : dget (songsDict songs) (songid s) with
  | none => exact absurd hd hne
  | some tr => exact ⟨tr, rfl, dget_songsDict_selfKeyed songs (songid s) tr hd⟩

/-- Witness for C10 at concrete records with and without `trackId`. -/
theorem songid_identity_precedence_witness :
    songid (mkTrack (some "X") "y") = "X"
    ∧ songid (mkTrack none "A") = (mkTrack none "A").id
    ∧ (∃ tr, dget (songsDict [mkTrack none "A"]) (songid (mkTrack none "A")) = some tr
        ∧ songid tr = songid (mkTrack none "A")) :=
  ⟨songid_identity_precedence.1 (mkTrack (some "X") "y") "X" rfl,
   songid_identity_precedence.2.1 (mkTrack none "A") rfl,
   songid_identity_precedence.2.2 [mkTrack none "A"] (mkTrack none "A") (by decide)⟩

/-- Line 357: `[t for t in all_songs if int(t['rating']) > 3]`. -/
def thumbs_up (all_songs : List Track) : List Track :=
  all_songs.filter (fun t => 3 < t.rating)

/-- Sort key of line 359: `int(song.get('lastModifiedTimestamp')) * -1`. -/
def favSortKey (s : Track) : Int := s.lastModifiedTimestamp * -1

/-- Ordering used by the stable ascending sort of line 359. -/
def favLe (a b : Track) : Prop := favSortKey a ≤ favSortKey b

instance : DecidableRel favLe := fun a b => by unfold favLe; infer_instance

instance : IsTotal Track favLe := ⟨fun a b => le_total (favSortKey a) (favSortKey b)⟩

instance : IsTrans Track favLe := ⟨fun _ _ _ hab hbc => le_trans hab hbc⟩

/-- Python `list.sort` is a stable sort; `List.insertionSort` is the stable
sort used to model it. -/
def sortFavorites (l : List Track) : List Track := List.insertionSort favLe l

/-- Lines 357-359: filter the complete mobile-client set to rating above 3
and sort most recent first. -/
def favoritesList (all_songs : List Track) : List Track :=
  sortFavorites (thumbs_up all_songs)

/-- Concrete favorites example: rating 5, last modified 100/300/200. -/
def fav100 : Track := ⟨none, "f1", 5, 100, "", "", 0⟩

def fav300 : Track := ⟨none, "f2", 5, 300, "", "", 0⟩

def fav200 : Track := ⟨none, "f3", 5, 200, "", "", 0⟩

/-- Claim C6: the favorites derivation keeps exactly the songs rated strictly
above 3 and orders them by `lastModifiedTimestamp` descending; timestamps
[100, 300, 200] come out as [300, 200, 100]. -/
theorem favorites_selection_and_order (all_songs : List Track) :
    (∀ s, s ∈ favoritesList all_songs ↔ s ∈ all_songs ∧ 3 < s.rating)
    ∧ List.Sorted (fun a b : Track => b.lastModifiedTimestamp ≤ a.lastModifiedTimestamp)
        (favoritesList all_songs)
    ∧ favoritesList [fav100, fav300, fav200] = [fav300, fav200, fav100] := by
  refine ⟨?_, ?_, by decide⟩
  · intro s
    rw [favoritesList, sortFavorites, List.mem_insertionSort, thumbs_up, List.mem_filter]
    simp
  · have h := List.sorted_insertionSort favLe (thumbs_up all_songs)
    rw [favoritesList, sortFavorites]
    exact h.imp (fun hab => by unfold favLe favSortKey at hab; omega)

/-- Modelled from the spec: `compare_song_collections` of
`gmusicapi_wrapper.utils` (imported at line 73, not part of this repository;
its contract is spec section 4.3): return every song of the source collection
whose identity key does not appear among the target collection's identity
keys, in source order. -/
def compare_song_collections (kS : α → String) (kT : β → String)
    (src : List α) (tgt : List β) : List α :=
  src.filter (fun s => ! tgt.any (fun t => kT t == kS s))

/-- Lines 266-269: combine the three local buckets and the two google song
sets, then compute songs to move. -/
def songs_to_move (kL : α → String) (kG : β → String)
    (matched filtered excluded : List α) (gmatched gfiltered : List β) : List α :=
  compare_song_collections kL kG (matched ++ filtered ++ excluded) (gmatched ++ gfiltered)

/-- Claim C7: the songs-to-move result holds exactly the local songs (from any
of the three buckets) whose identity key is absent from the combined
matched+filtered remote set. -/
theorem songs_to_move_missing (kL : α → String) (kG : β → String)
    (matched filtered excluded : List α) (gmatched gfiltered : List β) (s : α) :
    s ∈ songs_to_move kL kG matched filtered excluded gmatched gfiltered
      ↔ s ∈ matched ++ filtered ++ excluded
        ∧ ∀ t ∈ gmatched ++ gfiltered, kG t ≠ kL s := by
  rw [songs_to_move, compare_song_collections, List.mem_filter]
  simp
  intro _
  constructor
  · rintro ⟨h1, h2⟩ t ht
    rcases ht with ht | ht
    · exact h1 t ht
    · exact h2 t ht
  · intro h
    exact ⟨fun t ht => h t (Or.inl ht), fun t ht => h t (Or.inr ht)⟩

/-- Lexicographic code-point comparison of character lists: the order Python
uses when comparing strings. -/
def charListLtb : List Char → List Char → Bool
  | [], [] => false
  | [], _ :: _ => true
  | _ :: _, [] => false
  | a :: as, b :: bs =>
    if a < b then true else if b < a then false else charListLtb as bs

/-- Python string comparison as a proposition. -/
def pyStrLt (a b : String) : Prop := charListLtb a.data b.data = true

instance : DecidableRel pyStrLt := fun a b => by unfold pyStrLt; infer_instance

theorem charListLtb_trans :
    ∀ a b c : List Char, charListLtb a b = true → charListLtb b c = true →
      charListLtb a c = true
  | [], [], _ => by simp [charListLtb]
  | [], _ :: _, [] => by simp [charListLtb]
  | [], _ :: _, _ :: _ => by simp [charListLtb]
  | _ :: _, [], _ => by simp [charListLtb]
  | _ :: _, _ :: _, [] => by simp [charListLtb]
  | a :: as, b :: bs, c :: cs => by
    simp only [charListLtb]
    intro hab hbc
    rcases lt_trichotomy a b with h1 | h1 | h1
    · rcases lt_trichotomy b c with h2 | h2 | h2
      · simp [lt_trans h1 h2]
      · subst h2; simp [h1]
      · simp [h2, lt_asymm h2] at hbc
    · subst h1
      simp only [lt_irrefl, if_false] at hab
      rcases lt_trichotomy a c with h2 | h2 | h2
      · simp [h2]
      · subst h2
        simp only [lt_irrefl, if_false] at hbc ⊢
        exact charListLtb_trans as bs cs hab hbc
      · simp [h2, lt_asymm h2] at hbc
    · simp [h1, lt_asymm h1] at hab

theorem charListLtb_asymm_eq :
    ∀ a b : List Char, charListLtb a b = false → charListLtb b a = false → a = b
  | [], [] => by intros; rfl
  | [], _ :: _ => by simp [charListLtb]
  | _ :: _, [] => by simp [charListLtb]
  | a :: as, b :: bs => by
    simp only [charListLtb]
    rcases lt_trichotomy a b with h | h | h
    · simp [h]
    · subst h
      simp only [lt_irrefl, if_false]
      intro h1 h2
      rw [charListLtb_asymm_eq as bs h1 h2]
    · simp [h, lt_asymm h]

theorem pyStrLt_trans (a b c : String) :
    pyStrLt a b → pyStrLt b c → pyStrLt a c :=
  charListLtb_trans a.data b.data c.data

theorem pyStrLt_trichotomy (a b : String) : pyStrLt a b ∨ a = b ∨ pyStrLt b a := by
  by_cases h1 : pyStrLt a b
  · exact Or.inl h1
  · by_cases h2 : pyStrLt b a
    · exact Or.inr (Or.inr h2)
    · refine Or.inr (Or.inl ?_)
      unfold pyStrLt at h1 h2
      have hd := charListLtb_asymm_eq a.data b.data (by simpa using h1) (by simpa using h2)
      cases a; cases b; simp_all

/-- Python tuple comparison restricted to the `(str, str, int)` shape used by
the download sort key: lexicographic. -/
def tupleLe (a b : String × String × Int) : Prop :=
  pyStrLt a.1 b.1
    ∨ (a.1 = b.1 ∧ (pyStrLt a.2.1 b.2.1 ∨ (a.2.1 = b.2.1 ∧ a.2.2 ≤ b.2.2)))

instance : DecidableRel tupleLe := fun a b => by unfold tupleLe; infer_instance

theorem tupleLe_total (a b : String × String × Int) : tupleLe a b ∨ tupleLe b a := by
  rcases pyStrLt_trichotomy a.1 b.1 with h | h | h
  · exact Or.inl (Or.inl h)
  · rcases pyStrLt_trichotomy a.2.1 b.2.1 with h2 | h2 | h2
    · exact Or.inl (Or.inr ⟨h, Or.inl h2⟩)
    · rcases le_total a.2.2 b.2.2 with h3 | h3
      · exact Or.inl (Or.inr ⟨h, Or.inr ⟨h2, h3⟩⟩)
      · exact Or.inr (Or.inr ⟨h.symm, Or.inr ⟨h2.symm, h3⟩⟩)
    · exact Or.inr (Or.inr ⟨h.symm, Or.inl h2⟩)
  · exact Or.inr (Or.inl h)

theorem tupleLe_trans (a b c : String × String × Int) :
    tupleLe a b → tupleLe b c → tupleLe a c := by
  rintro (h1 | ⟨e1, h1⟩) (h2 | ⟨e2, h2⟩)
  · exact Or.inl (pyStrLt_trans _ _ _ h1 h2)
  · exact Or.inl (e2 ▸ h1)
  · exact Or.inl (by rw [e1]; exact h2)
  · refine Or.inr ⟨e1.trans e2, ?_⟩
    rcases h1 with h1 | ⟨f1, g1⟩ <;> rcases h2 with h2 | ⟨f2, g2⟩
    · exact Or.inl (pyStrLt_trans _ _ _ h1 h2)
    · exact Or.inl (f2 ▸ h1)
    · exact Or.inl (by rw [f1]; exact h2)
    · exact Or.inr ⟨f1.trans f2, le_trans g1 g2⟩

/-- Sort key of line 253:
`(song.get('artist'), song.get('album'), song.get('track_number'))`. -/
def downloadKey (s : Track) : String × String × Int :=
  (s.artist, s.album, s.track_number)

/-- Ordering of the download sort of line 253. -/
def downKeyLe (a b : Track) : Prop := tupleLe (downloadKey a) (downloadKey b)

instance : DecidableRel downKeyLe := fun a b => by unfold downKeyLe; infer_instance

instance : IsTotal Track downKeyLe := ⟨fun _ _ => tupleLe_total _ _⟩

instance : IsTrans Track downKeyLe := ⟨fun _ _ _ => tupleLe_trans _ _ _⟩

/-- Line 253: `songs_to_download.sort(key=...)`, a stable ascending sort. -/
def sortDownload (l : List Track) : List Track := List.insertionSort downKeyLe l

/-- Lines 248-254: compare the google songs against the re-scanned local
songs, then sort the missing ones by (artist, album, track number). -/
def download_missing_google_songs (kS : Track → String) (kT : β → String)
    (mmw_songs : List Track) (matched_local : List β) : List Track :=
  sortDownload (compare_song_collections kS kT mmw_songs matched_local)

/-- Local song on the upload path: the Python value being sorted is the file
path string; the tag fields record the file's metadata so that the claimed
(artist, album, track number) key is expressible alongside it. -/
structure LSong where
  path : String
  artist : String
  album : String
  track_number : Int
deriving DecidableEq

/-- Line 384: `songs_to_upload.sort()` compares the list elements themselves,
which are the local file paths. -/
def pathLe (a b : LSong) : Prop := pyStrLt a.path b.path ∨ a.path = b.path

instance : DecidableRel pathLe := fun a b => by unfold pathLe; infer_instance

instance : IsTotal LSong pathLe := by
  refine ⟨fun a b => ?_⟩
  rcases pyStrLt_trichotomy a.path b.path with h | h | h
  · exact Or.inl (Or.inl h)
  · exact Or.inl (Or.inr h)
  · exact Or.inr (Or.inl h)

instance : IsTrans LSong pathLe := by
  refine ⟨fun a b c h1 h2 => ?_⟩
  rcases h1 with h1 | h1 <;> rcases h2 with h2 | h2
  · exact Or.inl (pyStrLt_trans _ _ _ h1 h2)
  · exact Or.inl (h2 ▸ h1)
  · exact Or.inl (by rw [h1]; exact h2)
  · exact Or.inr (h1.trans h2)

/-- Line 384: plain `sort()` of the upload list. -/
def sortUpload (l : List LSong) : List LSong := List.insertionSort pathLe l

/-- Line 381 followed by line 384: comparator output, then plain sort. -/
def songs_to_upload_sorted (kS : LSong → String) (kT : β → String)
    (matched_local : List LSong) (google : List β) : List LSong :=
  sortUpload (compare_song_collections kS kT matched_local google)

/-- Ordering by the key the claim asserts for uploads, stated from the
claim's words for comparison with the code's plain `sort()`. -/
def uploadTagLe (a b : LSong) : Prop :=
  tupleLe (a.artist, a.album, a.track_number) (b.artist, b.album, b.track_number)

instance : DecidableRel uploadTagLe := fun a b => by unfold uploadTagLe; infer_instance

/-- Claimed upload sort: by (artist, album, track number). -/
def sortUploadByTags (l : List LSong) : List LSong :=
  List.insertionSort uploadTagLe l

/-- Concrete upload songs whose path order disagrees with their tag order. -/
def cxUpA : LSong := ⟨"a.mp3", "Zed", "Z", 1⟩

def cxUpB : LSong := ⟨"b.mp3", "Amy", "A", 1⟩

/-- Claim C8, counterexample: the upload list is sorted by file path, not by
(artist, album, track number) — the two orders differ on this input. -/
theorem upload_sort_not_by_tags_cx :
    sortUpload [cxUpB, cxUpA] ≠ sortUploadByTags [cxUpB, cxUpA] := by decide

/-- Claim C8 as amended: after the comparator returns, the caller sorts the
songs-to-download list by (artist, album, track number); the songs-to-upload
list is sorted by the default order of its elements, the local file paths,
not by that key. -/
theorem post_comparator_sorts (kS : Track → String) (kT : β → String)
    (kSU : LSong → String) (kTU : γ → String)
    (mmw_songs : List Track) (matched_local : List β)
    (local_songs : List LSong) (google_songs : List γ) :
    (List.Perm (download_missing_google_songs kS kT mmw_songs matched_local)
        (compare_song_collections kS kT mmw_songs matched_local)
      ∧ List.Sorted downKeyLe (download_missing_google_songs kS kT mmw_songs matched_local))
    ∧ (List.Perm (songs_to_upload_sorted kSU kTU local_songs google_songs)
        (compare_song_collections kSU kTU local_songs google_songs)
      ∧ List.Sorted pathLe (songs_to_upload_sorted kSU kTU local_songs google_songs))
    ∧ sortUpload [cxUpB, cxUpA] = [cxUpA, cxUpB]
    ∧ sortUploadByTags [cxUpB, cxUpA] = [cxUpB, cxUpA] := by
  refine ⟨⟨?_, ?_⟩, ⟨?_, ?_⟩, by decide, by decide⟩
  · exact List.perm_insertionSort downKeyLe _
  · exact List.sorted_insertionSort downKeyLe _
  · exact List.perm_insertionSort pathLe _
  · exact List.sorted_insertionSort pathLe _

/-- Value in the parsed command-line mapping: docopt yields booleans for
flags, strings for valued options, lists for repeatable ones, None for
absent values. -/
inductive CliVal where
  | vbool (b : Bool)
  | vstr (s : String)
  | vlist (l : List String)
  | vnone
deriving DecidableEq

/-- Line 355:
`cli['favorites'] if 'favorites' in cli else '___auto_favorites___'`. -/
def favorites_playlist_name (cli : PyDict CliVal) : CliVal :=
  match dget cli "favorites" with
  | some v => v
  | none => CliVal.vstr "___auto_favorites___"

/-- Parsed CLI mapping for `gmsync down -p <dir>` with no `--favorites` on
the command line: the docopt result dict materializes every declared option
(the script itself relies on that, indexing unset options directly at lines
186-200, 213 and 259), with unset flags mapped to False.  Keys appear after
the lstrip/rstrip renaming of line 182. -/
def cli_down_no_favorites : PyDict CliVal :=
  [("help", CliVal.vbool false), ("cred", CliVal.vstr "oauth"),
   ("uploader-id", CliVal.vnone), ("log", CliVal.vbool false),
   ("match", CliVal.vbool false), ("dry-run", CliVal.vbool false),
   ("quiet", CliVal.vbool false), ("delete-on-success", CliVal.vbool false),
   ("no-recursion", CliVal.vbool false), ("max-depth", CliVal.vnone),
   ("exclude", CliVal.vlist []), ("include-filter", CliVal.vlist []),
   ("exclude-filter", CliVal.vlist []), ("all-includes", CliVal.vbool false),
   ("all-excludes", CliVal.vbool false), ("playlists", CliVal.vbool true),
   ("removed", CliVal.vbool false), ("favorites", CliVal.vbool false),
   ("up", CliVal.vbool false), ("down", CliVal.vbool true),
   ("input", CliVal.vlist []), ("output", CliVal.vnone)]

/-- Claim C3: on a `down` run with playlists and no favorites name supplied,
the favorites playlist name is NOT the sentinel: docopt always materializes
the `favorites` key, so `'favorites' in cli` is true and the name is the
unset flag value False — the sentinel branch of line 355 is dead. -/
theorem favorites_name_dead_default :
    favorites_playlist_name cli_down_no_favorites = CliVal.vbool false
    ∧ favorites_playlist_name cli_down_no_favorites
        ≠ CliVal.vstr "___auto_favorites___" := by
  refine ⟨rfl, by decide⟩

/-- Phases of `main`, used to record which statements completed. -/
inductive StepTag where
  | parse
  | debugPrint
  | setup
  | login
  | authGate
  | mobileLogin
  | fetch
  | reconcile
  | act
  | logout
deriving DecidableEq

/-- Outcome of running `main`: an uncaught exception, `sys.exit`, or normal
completion. -/
inductive PyOutcome where
  | nameError (missing : String)
  | exited (code : Nat)
  | finished
deriving DecidableEq

/-- Process exit status: an uncaught exception exits 1, bare `sys.exit()`
raises SystemExit(None) giving status 0, and normal completion exits 0. -/
def exitCode : PyOutcome → Nat
  | PyOutcome.nameError _ => 1
  | PyOutcome.exited c => c
  | PyOutcome.finished => 0

/-- Statement of the straight-lined `main`: the module-level and local names
it reads, the local names it binds, and its phase; or an authentication gate
(`if not w.is_authenticated: sys.exit()`) on one of the two wrappers. -/
inductive PyStmt where
  | basic (uses : List String) (binds : List String) (tag : StepTag)
  | authCheck (uses : List String) (mmwSide : Bool) (tag : StepTag)
deriving DecidableEq

/-- Environment of a run: whether each wrapper ends up authenticated after
its login call. -/
structure MainEnv where
  mmwAuthOk : Bool
  mcwAuthOk : Bool

/-- Module-level names of `gmsync.py`: the imports of lines 62-77 and the
top-level definitions of lines 80-181.  The name `pp` is not among them. -/
def moduleGlobals : List String :=
  ["logging", "os", "sys", "shutil", "tempfile", "json", "docopt",
   "MusicManagerWrapper", "MobileClientWrapper", "compare_song_collections",
   "template_to_filepath", "utils", "OAUTH_FILEPATH", "reduce", "QUIET",
   "logger", "sh", "template_to_base_path", "metadata_from_mobile_client_song",
   "login_mobile_client", "login_mobile_client_from_cache",
   "removeEmptyFolders", "main"]

/-- Run a statement list: a statement one of whose used names is not in
scope raises NameError (Python resolves names at use time); an
authentication gate calls `sys.exit()` when the wrapper is unauthenticated.
Returns the outcome and the tags of the statements that completed. -/
def runStmts (env : MainEnv) (scope : List String) (trace : List StepTag) :
    List PyStmt → PyOutcome × List StepTag
  | [] => (PyOutcome.finished, trace)
  | PyStmt.basic uses binds tag :: rest =>
    match uses.find? (fun n => ! scope.contains n) with
    | some n => (PyOutcome.nameError n, trace)
    | none => runStmts env (binds ++ scope) (trace ++ [tag]) rest
  | PyStmt.authCheck uses mmwSide tag :: rest =>
    match uses.find? (fun n => ! scope.contains n) with
    | some n => (PyOutcome.nameError n, trace)
    | none =>
      if (if mmwSide then env.mmwAuthOk else env.mcwAuthOk)
      then runStmts env scope (trace ++ [tag]) rest
      else (PyOutcome.exited 0, trace ++ [tag])

/-- Straight-lined statements of `main` (lines 182-431), each with the names
it reads and the local names it binds.  Line 184 is the `pp.pprint(cli)`
statement. -/
def mainStmts : List PyStmt :=
  [PyStmt.basic ["docopt"] ["cli"] StepTag.parse,
   PyStmt.basic ["pp", "cli"] [] StepTag.debugPrint,
   PyStmt.basic ["cli"] [] StepTag.setup,
   PyStmt.basic ["cli", "logger", "QUIET", "logging"] [] StepTag.setup,
   PyStmt.basic ["cli", "os"] [] StepTag.setup,
   PyStmt.basic ["cli"] ["include_filters", "exclude_filters"] StepTag.setup,
   PyStmt.basic ["MusicManagerWrapper", "cli"] ["mmw"] StepTag.setup,
   PyStmt.basic ["mmw", "cli"] [] StepTag.login,
   PyStmt.authCheck ["mmw", "sys"] true StepTag.authGate,
   PyStmt.basic ["MobileClientWrapper", "cli"] ["mcw"] StepTag.setup,
   PyStmt.basic ["cli", "login_mobile_client_from_cache", "mcw"] [] StepTag.mobileLogin,
   PyStmt.authCheck ["mcw", "sys", "cli"] false StepTag.authGate,
   PyStmt.basic ["mmw", "cli", "template_to_base_path"] ["matched_google_songs", "filtered_google_songs"] StepTag.fetch,
   PyStmt.basic ["mmw", "cli", "compare_song_collections", "logger"] ["songs_to_download"] StepTag.reconcile,
   PyStmt.basic ["mmw", "cli", "logger", "shutil", "os", "utils"] [] StepTag.act,
   PyStmt.basic ["mmw", "mcw", "logger"] [] StepTag.logout]

/-- Execution of `main` under a given environment. -/
def run_main (env : MainEnv) : PyOutcome × List StepTag :=
  runStmts env moduleGlobals [] mainStmts

/-- Claim C4: every accepted invocation of `main` raises NameError on the
undefined name `pp` immediately after command-line parsing — the completed
trace is exactly the parse step, so no login, fetch or reconciliation ever
runs. -/
theorem main_name_error_pp (env : MainEnv) :
    run_main env = (PyOutcome.nameError "pp", [StepTag.parse]) := rfl

/-- Claim C2: in every run whose environment would leave the music manager
unauthenticated, the program terminates with a non-zero exit status before
any fetch, reconciliation or transport step.  (It does so for every run: the
NameError of line 184, exit status 1, precedes the login; the explicit
`sys.exit()` of line 209 — which would exit 0 — is unreachable.) -/
theorem auth_failure_aborts (env : MainEnv) (_h : env.mmwAuthOk = false) :
    exitCode (run_main env).1 ≠ 0
    ∧ StepTag.fetch ∉ (run_main env).2
    ∧ StepTag.reconcile ∉ (run_main env).2
    ∧ StepTag.act ∉ (run_main env).2 := by
  have he : run_main env = (PyOutcome.nameError "pp", [StepTag.parse]) := rfl
  rw [he]
  exact ⟨by decide, by decide, by decide, by decide⟩

/-- Witness for C2 at a concrete failing-authentication environment. -/
theorem auth_failure_aborts_witness :
    (MainEnv.mmwAuthOk ⟨false, false⟩ = false)
    ∧ (exitCode (run_main ⟨false, false⟩).1 ≠ 0
      ∧ StepTag.fetch ∉ (run_main ⟨false, false⟩).2
      ∧ StepTag.reconcile ∉ (run_main ⟨false, false⟩).2
      ∧ StepTag.act ∉ (run_main ⟨false, false⟩).2) :=
  ⟨rfl, auth_failure_aborts ⟨false, false⟩ rfl⟩

/-- Longest common prefix of two lists, taken element by element. -/
def lcp2 [DecidableEq α] : List α → List α → List α
  | a :: as, b :: bs => if a = b then a :: lcp2 as bs else []
  | _, _ => []

/-- Implementation of `os.path.commonprefix`: the longest prefix common to
all the lists, taken element by element (character by character on paths),
empty on an empty input list. -/
def commonPref [DecidableEq α] : List (List α) → List α
  | [] => []
  | p :: ps => ps.foldl lcp2 p

/-- One list is an initial segment of another. -/
def isPref (p q : List α) : Prop := ∃ t, p ++ t = q

theorem isPref_rfl (p : List α) : isPref p p := ⟨[], List.append_nil p⟩

theorem isPref_nil (q : List α) : isPref [] q := ⟨q, rfl⟩

theorem isPref_trans {p q r : List α} (h1 : isPref p q) (h2 : isPref q r) :
    isPref p r := by
  obtain ⟨t1, rfl⟩ := h1
  obtain ⟨t2, rfl⟩ := h2
  exact ⟨t1 ++ t2, (List.append_assoc p t1 t2).symm⟩

theorem isPref_cons {a b : α} {p q : List α} :
    isPref (a :: p) (b :: q) ↔ a = b ∧ isPref p q := by
  constructor
  · rintro ⟨t, ht⟩
    injection ht with h1 h2
    exact ⟨h1, t, h2⟩
  · rintro ⟨rfl, t, ht⟩
    exact ⟨t, by rw [List.cons_append, ht]⟩

theorem isPref_length {p q : List α} (h : isPref p q) : p.length ≤ q.length := by
  obtain ⟨t, rfl⟩ := h
  simp

theorem isPref_antisymm {p q : List α} (h1 : isPref p q) (h2 : isPref q p) :
    p = q := by
  obtain ⟨t1, rfl⟩ := h1
  have := isPref_length h2
  simp only [List.length_append] at this
  have ht : t1 = [] := List.eq_nil_of_length_eq_zero (by omega)
  rw [ht, List.append_nil]

theorem isPref_append (p t : List α) : isPref p (p ++ t) := ⟨t, rfl⟩

theorem isPref_cancel {s p q : List α} (h : isPref (s ++ p) (s ++ q)) :
    isPref p q := by
  induction s with
  | nil => exact h
  | cons a s ih =>
    rw [List.cons_append, List.cons_append, isPref_cons] at h
    exact ih h.2

theorem isPref_mem {p q : List α} {a : α} (h : isPref p q) (ha : a ∈ p) :
    a ∈ q := by
  obtain ⟨t, rfl⟩ := h
  exact List.mem_append_left t ha

theorem lcp2_isPref_left [DecidableEq α] :
    ∀ a b : List α, isPref (lcp2 a b) a
  | [], _ => isPref_nil []
  | _ :: _, [] => isPref_nil _
  | a :: as, b :: bs => by
    simp only [lcp2]
    by_cases h : a = b
    · rw [if_pos h, isPref_cons]
      exact ⟨rfl, lcp2_isPref_left as bs⟩
    · rw [if_neg h]
      exact isPref_nil _

theorem lcp2_isPref_right [DecidableEq α] :
    ∀ a b : List α, isPref (lcp2 a b) b
  | [], _ => isPref_nil _
  | _ :: _, [] => isPref_nil _
  | a :: as, b :: bs => by
    simp only [lcp2]
    by_cases h : a = b
    · rw [if_pos h, isPref_cons]
      exact ⟨h, lcp2_isPref_right as bs⟩
    · rw [if_neg h]
      exact isPref_nil _

theorem isPref_lcp2 [DecidableEq α] :
    ∀ {k a b : List α}, isPref k a → isPref k b → isPref k (lcp2 a b)
  | [], _, _, _, _ => isPref_nil _
  | x :: k, a :: as, b :: bs, h1, h2 => by
    rw [isPref_cons] at h1 h2
    simp only [lcp2]
    rw [h1.1] at h2 ⊢
    rw [if_pos h2.1, isPref_cons]
    exact ⟨rfl, isPref_lcp2 h1.2 h2.2⟩
  | _ :: _, [], _, h1, _ => absurd (isPref_length h1) (by simp)
  | _ :: _, _ :: _, [], _, h2 => absurd (isPref_length h2) (by simp)

theorem foldlcp_isPref_init [DecidableEq α] :
    ∀ (ps : List (List α)) (p : List α), isPref (ps.foldl lcp2 p) p
  | [], p => isPref_rfl p
  | q :: ps, p =>
    isPref_trans (foldlcp_isPref_init ps (lcp2 p q)) (lcp2_isPref_left p q)

theorem foldlcp_isPref_mem [DecidableEq α] :
    ∀ (ps : List (List α)) (p q : List α), q ∈ ps → isPref (ps.foldl lcp2 p) q
  | [], _, _, h => absurd h (List.not_mem_nil _)
  | q2 :: ps, p, q, h => by
    rcases List.mem_cons.mp h with rfl | h
    · exact isPref_trans (foldlcp_isPref_init ps (lcp2 p q)) (lcp2_isPref_right p q)
    · exact foldlcp_isPref_mem ps (lcp2 p q2) q h

theorem isPref_foldlcp [DecidableEq α] :
    ∀ (ps : List (List α)) (p k : List α),
      isPref k p → (∀ q ∈ ps, isPref k q) → isPref k (ps.foldl lcp2 p)
  | [], _, _, h, _ => h
  | q :: ps, p, k, h, hall =>
    isPref_foldlcp ps (lcp2 p q) k
      (isPref_lcp2 h (hall q (List.mem_cons_self _ _)))
      (fun r hr => hall r (List.mem_cons_of_mem _ hr))

/-- Character-list join of path components with the `/` separator. -/
def interSlash : List (List Char) → List Char
  | [] => []
  | [c] => c
  | c :: c2 :: cs => c ++ '/' :: interSlash (c2 :: cs)

/-- Character list of an absolute path with the given components. -/
def renderPath (comps : List (List Char)) : List Char := '/' :: interSlash comps

/-- Clean path component: nonempty and without a separator. -/
def goodComp (c : List Char) : Prop := c ≠ [] ∧ '/' ∉ c

instance : DecidablePred goodComp := fun c => by unfold goodComp; infer_instance

/-- Rendering of a directory as the start of a longer path: the directory
followed by a separator, or just the root. -/
def dirBoundary (L : List (List Char)) : List Char :=
  if L = [] then ['/'] else renderPath L ++ ['/']

theorem interSlash_append :
    ∀ (xs : List (List Char)) (y : List Char) (ys : List (List Char)), xs ≠ [] →
      interSlash (xs ++ y :: ys) = interSlash xs ++ '/' :: interSlash (y :: ys)
  | [], _, _, h => absurd rfl h
  | [x], y, ys, _ => rfl
  | x :: x2 :: xs, y, ys, _ => by
    have ih := interSlash_append (x2 :: xs) y ys (by simp)
    have e2 : (x2 :: xs) ++ y :: ys = x2 :: (xs ++ y :: ys) := rfl
    rw [e2] at ih
    show x ++ '/' :: interSlash (x2 :: (xs ++ y :: ys))
        = interSlash (x :: x2 :: xs) ++ '/' :: interSlash (y :: ys)
    rw [ih]
    show x ++ '/' :: (interSlash (x2 :: xs) ++ '/' :: interSlash (y :: ys))
        = (x ++ '/' :: interSlash (x2 :: xs)) ++ '/' :: interSlash (y :: ys)
    rw [List.append_assoc]
    rfl

theorem renderPath_append (L : List (List Char)) (y : List Char)
    (ys : List (List Char)) (hL : L ≠ []) :
    renderPath (L ++ y :: ys) = renderPath L ++ '/' :: interSlash (y :: ys) := by
  simp only [renderPath, interSlash_append L y ys hL, List.cons_append]

theorem dirBoundary_append (L : List (List Char)) (y : List Char)
    (ys : List (List Char)) :
    renderPath (L ++ y :: ys) = dirBoundary L ++ interSlash (y :: ys) := by
  by_cases hL : L = []
  · subst hL
    simp [renderPath, dirBoundary]
  · rw [renderPath_append L y ys hL, dirBoundary, if_neg hL, List.append_assoc]
    rfl

theorem renderPath_isPref {L cs : List (List Char)} (h : isPref L cs) :
    isPref (renderPath L) (renderPath cs) := by
  obtain ⟨t, rfl⟩ := h
  cases t with
  | nil => rw [List.append_nil]; exact isPref_rfl _
  | cons y ys =>
    rw [dirBoundary_append L y ys]
    by_cases hL : L = []
    · subst hL
      have hb : dirBoundary [] = ['/'] := by simp [dirBoundary]
      have hr : renderPath [] = ['/'] := rfl
      rw [hb, hr]
      exact isPref_append _ _
    · rw [dirBoundary, if_neg hL, List.append_assoc]
      exact isPref_append _ _

/-- Implementation of `str.rstrip('/')`: drop trailing separators. -/
def rstripSlash (p : List Char) : List Char :=
  (List.dropWhile (fun c => c == '/') p.reverse).reverse

/-- Implementation of `p[:p.rfind('/') + 1]`: the path up to and including
its last separator (empty when there is none). -/
def takeToLastSlash (p : List Char) : List Char :=
  (List.dropWhile (fun c => ! (c == '/')) p.reverse).reverse

/-- Tail of `posixpath.dirname`: keep the head unchanged when it is empty or
all separators, otherwise strip trailing separators. -/
def dirnameOfHead (head : List Char) : List Char :=
  if head = [] then head
  else if head.all (fun c => c == '/') then head
  else rstripSlash head

/-- Implementation of `os.path.dirname` (posixpath): take the prefix through
the last separator, then strip its trailing separators unless it is empty or
all separators. -/
def dirname (p : List Char) : List Char := dirnameOfHead (takeToLastSlash p)

theorem dropWhile_nonslash (s t : List Char) (h : '/' ∉ s) :
    List.dropWhile (fun c => ! (c == '/')) (s ++ '/' :: t) = '/' :: t := by
  induction s with
  | nil => simp [List.dropWhile]
  | cons a s ih =>
    have ha : ¬ a = '/' := fun e => h (e ▸ List.mem_cons_self a s)
    rw [List.cons_append,
      List.dropWhile_cons_of_pos (by simp [ha])]
    exact ih (fun hm => h (List.mem_cons_of_mem _ hm))

theorem takeToLastSlash_eq (X c : List Char) (hc : '/' ∉ c) :
    takeToLastSlash (X ++ '/' :: c) = X ++ ['/'] := by
  have e1 : (X ++ '/' :: c).reverse = c.reverse ++ '/' :: X.reverse := by
    simp
  rw [takeToLastSlash, e1,
    dropWhile_nonslash c.reverse X.reverse (by simpa using hc)]
  simp

theorem revInterSlash_head :
    ∀ M : List (List Char), M ≠ [] → (∀ c ∈ M, goodComp c) →
      ∃ z zs, (interSlash M).reverse = z :: zs ∧ ¬ z = '/'
  | [], h, _ => absurd rfl h
  | [m], _, hg => by
    have hm := hg m (List.mem_cons_self _ _)
    obtain ⟨z, zs, hz⟩ : ∃ z zs, m.reverse = z :: zs := by
      cases hmr : m.reverse with
      | nil => exact absurd (by simpa using hmr) hm.1
      | cons z zs => exact ⟨z, zs, rfl⟩
    refine ⟨z, zs, by simpa [interSlash] using hz, ?_⟩
    have hzm : z ∈ m := by
      have : z ∈ m.reverse := hz ▸ List.mem_cons_self _ _
      simpa using this
    exact fun e => hm.2 (e ▸ hzm)
  | m :: m2 :: M3, _, hg => by
    obtain ⟨z, zs, hz, hzs⟩ := revInterSlash_head (m2 :: M3) (by simp)
      (fun c hc => hg c (List.mem_cons_of_mem _ hc))
    refine ⟨z, zs ++ '/' :: m.reverse, ?_, hzs⟩
    have e : interSlash (m :: m2 :: M3) = m ++ '/' :: interSlash (m2 :: M3) := rfl
    have e2 : (m ++ '/' :: interSlash (m2 :: M3)).reverse
        = (interSlash (m2 :: M3)).reverse ++ '/' :: m.reverse := by simp
    rw [e, e2, hz]
    rfl

theorem dirnameOfHead_root : dirnameOfHead ['/'] = ['/'] := by
  simp [dirnameOfHead]

theorem dirnameOfHead_render (L : List (List Char)) (hL : L ≠ [])
    (hg : ∀ c ∈ L, goodComp c) :
    dirnameOfHead (renderPath L ++ ['/']) = renderPath L := by
  obtain ⟨z, zs, hz, hzs⟩ := revInterSlash_head L hL hg
  have hne : renderPath L ++ ['/'] ≠ [] := by simp [renderPath]
  have hzmem : z ∈ renderPath L ++ ['/'] := by
    have h1 : z ∈ interSlash L := by
      have h2 : z ∈ (interSlash L).reverse := hz ▸ List.mem_cons_self _ _
      simpa using h2
    exact List.mem_append_left _ (List.mem_cons_of_mem _ h1)
  have hall : ¬ ((renderPath L ++ ['/']).all (fun c => c == '/') = true) := by
    intro hallt
    rw [List.all_eq_true] at hallt
    have hzeq := hallt z hzmem
    simp only [beq_iff_eq] at hzeq
    exact hzs hzeq
  rw [dirnameOfHead, if_neg hne, if_neg hall, rstripSlash]
  have e1 : (renderPath L ++ ['/']).reverse
      = '/' :: ((interSlash L).reverse ++ ['/']) := by
    simp [renderPath]
  have e2 : List.dropWhile (fun c => c == '/')
        ('/' :: ((interSlash L).reverse ++ ['/']))
      = (interSlash L).reverse ++ ['/'] := by
    rw [hz, List.dropWhile_cons_of_pos (by simp),
      List.cons_append, List.dropWhile_cons_of_neg (by simp [hzs])]
  rw [e1, e2]
  have e3 : (interSlash L).reverse ++ ['/'] = (renderPath L).reverse := by
    simp [renderPath]
  rw [e3, List.reverse_reverse]

theorem dirname_renderPath (L : List (List Char)) (hL : L ≠ [])
    (hg : ∀ c ∈ L, goodComp c) :
    dirname (renderPath L) = renderPath L.dropLast := by
  obtain ⟨M, c, rfl⟩ : ∃ M c, L = M ++ [c] := by
    rcases List.eq_nil_or_concat L with h | ⟨M, c, h⟩
    · exact absurd h hL
    · exact ⟨M, c, by rw [h, List.concat_eq_append]⟩
  have hc : goodComp c := hg c (by simp)
  by_cases hM : M = []
  · subst hM
    have e : renderPath ([] ++ [c]) = [] ++ '/' :: c := by
      simp [renderPath, interSlash]
    rw [dirname, e, takeToLastSlash_eq [] c hc.2]
    simp [dirnameOfHead_root, renderPath, interSlash]
  · have e : renderPath (M ++ [c]) = renderPath M ++ '/' :: c := by
      rw [renderPath_append M c [] hM]
      rfl
    rw [dirname, e, takeToLastSlash_eq (renderPath M) c hc.2,
      dirnameOfHead_render M hM (fun x hx => hg x (List.mem_append_left _ hx))]
    rw [List.dropLast_concat]

theorem dirname_dirBoundary (L : List (List Char)) (rest : List Char)
    (hg : ∀ c ∈ L, goodComp c) (hrest : '/' ∉ rest) :
    dirname (dirBoundary L ++ rest) = renderPath L := by
  by_cases hL : L = []
  · subst hL
    have e : dirBoundary [] ++ rest = [] ++ '/' :: rest := by simp [dirBoundary]
    rw [dirname, e, takeToLastSlash_eq [] rest hrest]
    simp only [List.nil_append]
    rw [dirnameOfHead_root]
    rfl
  · have e : dirBoundary L ++ rest = renderPath L ++ '/' :: rest := by
      rw [dirBoundary, if_neg hL, List.append_assoc]
      rfl
    rw [dirname, e, takeToLastSlash_eq (renderPath L) rest hrest,
      dirnameOfHead_render L hL hg]

theorem firstSlash :
    ∀ rest : List Char, '/' ∈ rest →
      ∃ r0 r1, rest = r0 ++ '/' :: r1 ∧ '/' ∉ r0
  | [], h => absurd h (List.not_mem_nil _)
  | a :: rest, h => by
    by_cases ha : a = '/'
    · subst ha
      exact ⟨[], rest, rfl, List.not_mem_nil _⟩
    · have hr : '/' ∈ rest := by
        rcases List.mem_cons.mp h with he | hr
        · exact absurd he.symm ha
        · exact hr
      obtain ⟨r0, r1, he, hr0⟩ := firstSlash rest hr
      refine ⟨a :: r0, r1, by rw [he]; rfl, ?_⟩
      intro hm
      rcases List.mem_cons.mp hm with he2 | hm2
      · exact ha he2.symm
      · exact hr0 hm2

theorem sfPrefEq :
    ∀ (r0 y T : List Char), '/' ∉ r0 → '/' ∉ y →
      isPref (r0 ++ ['/']) (y ++ '/' :: T) → r0 = y
  | [], [], _, _, _, _ => rfl
  | [], b :: y, T, _, hy, h => by
    exfalso
    rw [List.nil_append, List.cons_append, isPref_cons] at h
    exact hy (h.1 ▸ List.mem_cons_self b y)
  | a :: r0, [], T, hr, _, h => by
    exfalso
    rw [List.cons_append, List.nil_append, isPref_cons] at h
    exact hr (h.1 ▸ List.mem_cons_self a r0)
  | a :: r0, b :: y, T, hr, hy, h => by
    rw [List.cons_append, List.cons_append, isPref_cons] at h
    rw [h.1, sfPrefEq r0 y T (fun hm => hr (List.mem_cons_of_mem _ hm))
      (fun hm => hy (List.mem_cons_of_mem _ hm)) h.2]

theorem sf_comp_eq (r0 y : List Char) (ys : List (List Char))
    (hr : '/' ∉ r0) (hy : goodComp y)
    (h : isPref (r0 ++ ['/']) (interSlash (y :: ys))) : y = r0 := by
  cases ys with
  | nil =>
    exfalso
    have hsl : '/' ∈ y := isPref_mem h (by simp)
    exact hy.2 hsl
  | cons y2 ys2 =>
    have h2 : isPref (r0 ++ ['/']) (y ++ '/' :: interSlash (y2 :: ys2)) := h
    exact (sfPrefEq r0 y _ hr hy.2 h2).symm

/-- Common ancestor directory of a path set, stated from the spec's words on
component lists: the longest common component sequence, shortened by one
component when it coincides with one of the paths (an ancestor directory is
proper). -/
def specAncestorComps (compss : List (List (List Char))) : List (List Char) :=
  if compss.all (fun cs => decide ((commonPref compss).length < cs.length))
  then commonPref compss
  else (commonPref compss).dropLast

/-- Common ancestor directory of a path set, rendered as a path. -/
def specCommonAncestorDir (compss : List (List (List Char))) : List Char :=
  renderPath (specAncestorComps compss)

/-- Sentinel template value of line 90. -/
def suggestedSentinel : List Char := "%suggested%".toList

/-- Function `template_to_base_path` of `gmsync.py` lines 87-97, with the
collaborators abstracted: `cwd` is `os.getcwd()`, `absf` is
`os.path.abspath`, and `resolve` is `template_to_filepath` from
`gmusicapi_wrapper.utils` (imported at line 73, external to this
repository). -/
def template_to_base_path (cwd : List Char) (absf : List Char → List Char)
    (resolve : List Char → Track → List Char) (template : List Char)
    (google_songs : List Track) : List Char :=
  if template = cwd ∨ template = suggestedSentinel then cwd
  else dirname (commonPref (google_songs.map (resolve (absf template))))

theorem commonPref_render (c0 : List (List Char)) (cs : List (List (List Char)))
    (hg : ∀ cs2 ∈ c0 :: cs, cs2 ≠ [] ∧ ∀ c ∈ cs2, goodComp c) :
    dirname (commonPref (List.map renderPath (c0 :: cs)))
      = renderPath (specAncestorComps (c0 :: cs)) := by
  have hcp2 : commonPref (c0 :: cs) = List.foldl lcp2 c0 cs := rfl
  have hmapcons : List.map renderPath (c0 :: cs)
      = renderPath c0 :: List.map renderPath cs := rfl
  have hcp1 : commonPref (renderPath c0 :: List.map renderPath cs)
      = List.foldl lcp2 (renderPath c0) (List.map renderPath cs) := rfl
  rw [hmapcons, hcp1]
  set R := List.foldl lcp2 (renderPath c0) (List.map renderPath cs) with hR
  set L := List.foldl lcp2 c0 cs with hL
  have hLpref : ∀ cs2 ∈ c0 :: cs, isPref L cs2 := by
    intro cs2 h2
    rcases List.mem_cons.mp h2 with rfl | h2
    · exact foldlcp_isPref_init _ _
    · exact foldlcp_isPref_mem _ _ _ h2
  have hgL : ∀ c ∈ L, goodComp c := fun c hc =>
    (hg c0 (List.mem_cons_self _ _)).2 c
      (isPref_mem (hLpref c0 (List.mem_cons_self _ _)) hc)
  have hcharPref : ∀ cs2 ∈ c0 :: cs, isPref R (renderPath cs2) := by
    intro cs2 h2
    rcases List.mem_cons.mp h2 with rfl | h2
    · exact foldlcp_isPref_init _ _
    · exact foldlcp_isPref_mem _ _ _ (List.mem_map_of_mem renderPath h2)
  by_cases hA : ∃ cd ∈ c0 :: cs, cd = L
  · obtain ⟨cd, hcd, hcdL⟩ := hA
    have hLne : L ≠ [] := hcdL ▸ (hg cd hcd).1
    have hchar_eq : R = renderPath L := by
      apply isPref_antisymm
      · have h1 := hcharPref cd hcd
        rw [hcdL] at h1
        exact h1
      · rw [hR]
        apply isPref_foldlcp
        · exact renderPath_isPref (hLpref c0 (List.mem_cons_self _ _))
        · intro q hq
          obtain ⟨cs2, hcs2, rfl⟩ := List.mem_map.mp hq
          exact renderPath_isPref (hLpref cs2 (List.mem_cons_of_mem _ hcs2))
    rw [hchar_eq, dirname_renderPath _ hLne hgL]
    have hcond : ((c0 :: cs).all fun cs2 =>
        decide ((commonPref (c0 :: cs)).length < cs2.length)) = false := by
      cases hall : (c0 :: cs).all fun cs2 =>
          decide ((commonPref (c0 :: cs)).length < cs2.length) with
      | false => rfl
      | true =>
        exfalso
        rw [List.all_eq_true] at hall
        have h2 := hall cd hcd
        rw [hcp2, hcdL] at h2
        simp at h2
    rw [specAncestorComps, hcond]
    simp [hcp2]
  · push_neg at hA
    have hdec : ∀ cs2 ∈ c0 :: cs, ∃ y ys, cs2 = L ++ y :: ys := by
      intro cs2 h2
      obtain ⟨t, ht⟩ := hLpref cs2 h2
      cases t with
      | nil =>
        rw [List.append_nil] at ht
        exact absurd ht.symm (hA cs2 h2)
      | cons y ys => exact ⟨y, ys, ht.symm⟩
    have hbound : isPref (dirBoundary L) R := by
      rw [hR]
      apply isPref_foldlcp
      · obtain ⟨y, ys, he⟩ := hdec c0 (List.mem_cons_self _ _)
        have he2 : renderPath c0 = dirBoundary L ++ interSlash (y :: ys) := by
          conv_lhs => rw [he]
          exact dirBoundary_append L y ys
        rw [he2]
        exact isPref_append _ _
      · intro q hq
        obtain ⟨cs2, hcs2, rfl⟩ := List.mem_map.mp hq
        obtain ⟨y, ys, he⟩ := hdec cs2 (List.mem_cons_of_mem _ hcs2)
        have he2 : renderPath cs2 = dirBoundary L ++ interSlash (y :: ys) := by
          conv_lhs => rw [he]
          exact dirBoundary_append L y ys
        rw [he2]
        exact isPref_append _ _
    obtain ⟨rest, hrest_eq⟩ := hbound
    have hsf : '/' ∉ rest := by
      intro hslash
      obtain ⟨r0, r1, rfl, hr0⟩ := firstSlash rest hslash
      have hnext : ∀ cs2 ∈ c0 :: cs, isPref (L ++ [r0]) cs2 := by
        intro cs2 h2
        obtain ⟨y, ys, he⟩ := hdec cs2 h2
        have hc2 := hcharPref cs2 h2
        have he2 : renderPath cs2 = dirBoundary L ++ interSlash (y :: ys) := by
          conv_lhs => rw [he]
          exact dirBoundary_append L y ys
        rw [← hrest_eq, he2] at hc2
        have hc3 := isPref_cancel hc2
        have hc4 : isPref (r0 ++ ['/']) (interSlash (y :: ys)) :=
          isPref_trans ⟨r1, by simp⟩ hc3
        have hy : goodComp y := (hg cs2 h2).2 y
          (he ▸ List.mem_append_right _ (List.mem_cons_self _ _))
        have hyr := sf_comp_eq r0 y ys hr0 hy hc4
        refine ⟨ys, ?_⟩
        rw [he, hyr]
        simp
      have hmax : isPref (L ++ [r0]) L := by
        rw [hL]
        exact isPref_foldlcp cs c0 (L ++ [r0])
          (hnext c0 (List.mem_cons_self _ _))
          (fun q hq => hnext q (List.mem_cons_of_mem _ hq))
      have hlen := isPref_length hmax
      simp at hlen
    rw [← hrest_eq, dirname_dirBoundary _ rest hgL hsf]
    have hcond : ((c0 :: cs).all fun cs2 =>
        decide ((commonPref (c0 :: cs)).length < cs2.length)) = true := by
      rw [List.all_eq_true]
      intro cs2 h2
      obtain ⟨y, ys, he⟩ := hdec cs2 h2
      rw [hcp2, he]
      simp
    rw [specAncestorComps, hcond]
    simp [hcp2]

/-- Claim C9: `template_to_base_path` returns the current working directory
unchanged when the template equals it or the sentinel; for any other
template it returns the common ancestor directory of the per-song paths
resolved from the template (for resolved paths that are clean absolute
paths, given by their component lists). -/
theorem template_to_base_path_spec :
    (∀ (cwd : List Char) (absf : List Char → List Char)
        (resolve : List Char → Track → List Char) (template : List Char)
        (google_songs : List Track),
      (template = cwd ∨ template = suggestedSentinel) →
      template_to_base_path cwd absf resolve template google_songs = cwd)
    ∧ (∀ (cwd : List Char) (absf : List Char → List Char)
        (resolve : List Char → Track → List Char) (template : List Char)
        (google_songs : List Track) (compss : List (List (List Char))),
      template ≠ cwd → template ≠ suggestedSentinel → compss ≠ [] →
      (∀ cs2 ∈ compss, cs2 ≠ [] ∧ ∀ c ∈ cs2, goodComp c) →
      List.map (resolve (absf template)) google_songs
        = List.map renderPath compss →
      template_to_base_path cwd absf resolve template google_songs
        = specCommonAncestorDir compss) := by
  constructor
  · intro cwd absf resolve template songs h
    rw [template_to_base_path, if_pos h]
  · intro cwd absf resolve template songs compss h1 h2 hne hgood hmap
    rw [template_to_base_path, if_neg (not_or.mpr ⟨h1, h2⟩), hmap]
    cases compss with
    | nil => exact absurd rfl hne
    | cons c0 cs =>
      rw [specCommonAncestorDir]
      exact commonPref_render c0 cs hgood

/-- Concrete working directory for the C9 witness. -/
def basePathCwd : List Char := "/cwd".toList

/-- Concrete explicit template for the C9 witness. -/
def basePathTemplate : List Char := "/music/x".toList

/-- Concrete resolver: the two songs resolve to sibling files under
`/m/a`. -/
def basePathResolve : List Char → Track → List Char :=
  fun _ t => if t.id = "s1" then "/m/a/x.mp3".toList else "/m/a/y.mp3".toList

/-- Concrete songs for the C9 witness. -/
def basePathSongs : List Track := [mkTrack none "s1", mkTrack none "s2"]

/-- Component lists of the two resolved paths. -/
def basePathComps : List (List (List Char)) :=
  [["m".toList, "a".toList, "x.mp3".toList],
   ["m".toList, "a".toList, "y.mp3".toList]]

/-- Witness for C9: on the concrete input the derived base path equals the
common ancestor directory `/m/a`, and the sentinel branch returns the
working directory unchanged. -/
theorem template_to_base_path_spec_witness :
    (basePathTemplate ≠ basePathCwd
      ∧ basePathTemplate ≠ suggestedSentinel
      ∧ basePathComps ≠ []
      ∧ (∀ cs2 ∈ basePathComps, cs2 ≠ [] ∧ ∀ c ∈ cs2, goodComp c)
      ∧ List.map (basePathResolve (id basePathTemplate)) basePathSongs
          = List.map renderPath basePathComps)
    ∧ template_to_base_path basePathCwd id basePathResolve basePathTemplate
        basePathSongs = specCommonAncestorDir basePathComps
    ∧ specCommonAncestorDir basePathComps = "/m/a".toList
    ∧ template_to_base_path basePathCwd id basePathResolve basePathCwd
        basePathSongs = basePathCwd :=
  ⟨⟨by decide, by decide, by decide, by decide, by decide⟩,
   template_to_base_path_spec.2 basePathCwd id basePathResolve basePathTemplate
     basePathSongs basePathComps (by decide) (by decide) (by decide) (by decide)
     (by decide),
   by decide,
   template_to_base_path_spec.1 basePathCwd id basePathResolve basePathCwd
     basePathSongs (Or.inl rfl)⟩
